import Mathlib

/-!
Shallow embedding of the cross-reference validator in src/_validate_xref.py.

The script checks that every textual reference of the form <word-chars>-agent
appearing in a root document (CLAUDE.md) and in stage-command files resolves to
an agent definition file, counts template placeholder variables in template
files, and prints one overall pass/fail verdict.

The I/O layer (directory listings, file reads) is modelled as explicit inputs:
a RunInput record carries the root-document text, the agents-directory listing,
the commands-directory listing with file contents, and the template files.
Python's re module \w class is modelled over ASCII (letter, digit, underscore),
which covers every input the development evaluates.
-/

namespace Xref

/-- Model of Python regex \w over ASCII: letter, digit or underscore.
Source: the \w atoms of agent_pattern, src/_validate_xref.py line 14. -/
def isWordChar (c : Char) : Bool := c.isAlphanum || c = '_'

/-- Character class [\w-] of agent_pattern (word character or hyphen). -/
def isTokChar (c : Char) : Bool := isWordChar c || c = '-'

/-- The literal tail -agent of agent_pattern. -/
def agentLit : List Char := ['-', 'a', 'g', 'e', 'n', 't']

/-- Backtracking matcher for the regex tail [\w-]*-agent with Python greedy
semantics: prefer consuming a [\w-] character into the star, fall back to the
literal -agent at the current position. Returns (matched, remainder).
Source: agent_pattern = re.compile(r'(\w[\w-]*-agent)'), line 14. -/
def matchTail : List Char → Option (List Char × List Char)
  | [] => none
  | c :: rest =>
    match (if isTokChar c then matchTail rest else none) with
    | some (m, r) => some (c :: m, r)
    | none =>
      if (c :: rest).take 6 = agentLit then some (agentLit, (c :: rest).drop 6)
      else none

/-- Scanner implementing re.findall for agent_pattern: at each position try a
match starting with a \w character; on success emit it and continue after the
match, otherwise advance one character. Fuel equals the text length, which is
always sufficient since every step consumes at least one character. -/
def findAllAux : Nat → List Char → List (List Char)
  | 0, _ => []
  | _, [] => []
  | fuel + 1, c :: rest =>
    if isWordChar c then
      match matchTail rest with
      | some (m, r) => (c :: m) :: findAllAux fuel r
      | none => findAllAux fuel rest
    else findAllAux fuel rest

/-- agent_pattern.findall over the characters of a text, line 15 and line 34. -/
def agent_findall_chars (t : String) : List (List Char) :=
  findAllAux t.data.length t.data

/-- agent_pattern.findall returning strings. -/
def agent_pattern_findall (t : String) : List String :=
  (agent_findall_chars t).map (fun cs => String.mk cs)

/-- set(agent_pattern.findall(text)) of line 15: the distinct extracted
references, modelled as a duplicate-free list. -/
def agent_refs (t : String) : List String :=
  (agent_pattern_findall t).dedup

/-- Decidable characterization of texts that contain the literal -agent as a
substring; texts without it cannot contain any match of agent_pattern, which
is how the development states that match-free text yields an empty result. -/
def containsLit : List Char → Bool
  | [] => false
  | c :: rest => decide ((c :: rest).take 6 = agentLit) || containsLit rest

/-- Membership test ref in existing_agents of line 20 and line 36 (Python set
membership, exact string equality). -/
def resolves (ref : String) (manifest : List String) : Bool :=
  decide (ref ∈ manifest)

/-- Python str.replace('.md', ''): remove every non-overlapping occurrence of
.md scanning left to right. Source: f.replace('.md', ''), line 11. -/
def removeMd : List Char → List Char
  | [] => []
  | [c] => [c]
  | [c, d] => [c, d]
  | c :: d :: e :: rest =>
    if c = '.' ∧ d = 'm' ∧ e = 'd' then removeMd rest
    else c :: removeMd (d :: e :: rest)

/-- Python f.endswith('.md') of line 11. -/
def ends_with_md (f : String) : Bool :=
  decide (f.data.reverse.take 3 = (['d', 'm', '.'] : List Char))

/-- Python f.replace('.md', '') of line 11, on strings. -/
def replace_md (f : String) : String := String.mk (removeMd f.data)

/-- existing_agents of line 11: the manifest built from the agents-directory
listing, with set semantics modelled by dedup. -/
def existing_agents (files : List String) : List String :=
  ((files.filter (fun f => ends_with_md f)).map replace_md).dedup

/-- Lexicographic comparison of character lists by code point, the order
Python sorted uses on strings. -/
def listLe : List Char → List Char → Bool
  | [], _ => true
  | _ :: _, [] => false
  | a :: as, b :: bs =>
    if a.toNat < b.toNat then true
    else if a.toNat = b.toNat then listLe as bs
    else false

/-- Python string comparison by code points. -/
def strLe (a b : String) : Bool := listLe a.data b.data

/-- Insertion into a sorted list, used to model Python sorted. -/
def insertSorted (a : String) : List String → List String
  | [] => [a]
  | b :: bs => if strLe a b then a :: b :: bs else b :: insertSorted a bs

/-- Model of Python sorted over strings (insertion sort). -/
def sortStr : List String → List String
  | [] => []
  | a :: as => insertSorted a (sortStr as)

/-- The loop for ref in sorted(agent_refs) of lines 19 to 23, restricted to the
data it produces: one (reference, outcome) pair per distinct extracted
reference, in sorted order. Used for the root document and, per file, for the
stage-command files (lines 34 to 39). -/
def scan_refs (manifest : List String) (text : String) : List (String × Bool) :=
  (sortStr (agent_refs text)).map (fun r => (r, resolves r manifest))

/-- The all_pass update of lines 21 to 22 and 37 to 38: the flag is cleared on
a failing outcome and otherwise kept. -/
def step (acc outcome : Bool) : Bool := if outcome then acc else false

/-- Python f-string f'stage-0{i}' of line 30. -/
def stage_tag (i : Nat) : String := "stage-0" ++ toString i

/-- Python name.startswith(tag) of line 30. -/
def starts_with_tag (tag name : String) : Bool :=
  decide (name.data.take tag.data.length = tag.data)

/-- One stage of the loop at lines 29 to 39: the command files whose names
start with stage-0i, each scanned for agent references; results are labelled
with the originating file name. -/
def stage_results_for (manifest : List String) (cmd_files : List (String × String))
    (i : Nat) : List (String × String × Bool) :=
  ((cmd_files.filter (fun fc => starts_with_tag (stage_tag i) fc.1)).map
    (fun fc => (scan_refs manifest fc.2).map (fun rb => (fc.1, rb.1, rb.2)))).flatten

/-- The whole stage loop over a list of stage indices (range(1, 8) in the
source, line 29). -/
def stage_results (manifest : List String) (cmd_files : List (String × String))
    (stages : List Nat) : List (String × String × Bool) :=
  ((stages.map (stage_results_for manifest cmd_files)).flatten)

/-- range(1, 8) of line 29. -/
def the_stages : List Nat := [1, 2, 3, 4, 5, 6, 7]

/-- Character class [A-Z_] of the template-variable pattern, line 49. -/
def isUpperOrUnd (c : Char) : Bool := c.isUpper || c = '_'

/-- The opening brace character, written by code point to keep it out of
string literals. -/
def lbrace : Char := Char.ofNat 123

/-- The closing brace character. -/
def rbrace : Char := Char.ofNat 125

/-- Scanner implementing re.findall(r'\x7b\x7b[A-Z_]+\x7d\x7d', content) of
line 49, returning the number of matches: at each position, a match needs two
opening braces, a nonempty run of [A-Z_], then two closing braces; scanning
resumes after the match. -/
def tmplAux : Nat → List Char → Nat
  | 0, _ => 0
  | _, [] => 0
  | fuel + 1, c :: rest =>
    if c = lbrace ∧ rest.take 1 = [lbrace] ∧
        (rest.drop 1).takeWhile isUpperOrUnd ≠ [] ∧
        (((rest.drop 1).dropWhile isUpperOrUnd).take 2 = [rbrace, rbrace]) then
      tmplAux fuel (((rest.drop 1).dropWhile isUpperOrUnd).drop 2) + 1
    else tmplAux fuel rest

/-- len(vars_found) of lines 49 to 50. -/
def vars_found_count (content : String) : Nat :=
  tmplAux content.data.length content.data

/-- The PASS/WARN label of line 51: PASS when the count is positive. -/
def template_label (content : String) : String :=
  if vars_found_count content > 0 then "PASS" else "WARN"

/-- Python tf.endswith('.forge') of line 46. -/
def ends_with_forge (f : String) : Bool :=
  decide (f.data.reverse.take 6 = (['e', 'g', 'r', 'o', 'f', '.'] : List Char))

/-- The run's external inputs, supplied by the I/O collaborators: the root
document text, the agents-directory listing, the commands-directory listing
with contents, and the template files with contents. -/
structure RunInput where
  claude_md : String
  agent_files : List String
  cmd_files : List (String × String)
  template_files : List (String × String)

/-- Replace the template files of a run input, leaving everything else. -/
def with_templates (inp : RunInput) (ts : List (String × String)) : RunInput :=
  ⟨inp.claude_md, inp.agent_files, inp.cmd_files, ts⟩

/-- The manifest of the run, line 11. -/
def run_manifest (inp : RunInput) : List String := existing_agents inp.agent_files

/-- The root-document results of lines 19 to 23. -/
def root_results (inp : RunInput) : List (String × Bool) :=
  scan_refs (run_manifest inp) inp.claude_md

/-- The template section of lines 45 to 51: per .forge file, its variable
count. Advisory only; it never touches all_pass. -/
def template_results (inp : RunInput) : List (String × Nat) :=
  (inp.template_files.filter (fun tf => ends_with_forge tf.1)).map
    (fun tf => (tf.1, vars_found_count tf.2))

/-- The mandatory outcomes in program order: root-document outcomes (sorted
loop of lines 19 to 23), then stage-command outcomes (lines 29 to 39), for a
given list of stage indices. -/
def mandatory_outcomes_over (stages : List Nat) (inp : RunInput) : List Bool :=
  (root_results inp).map Prod.snd ++
    (stage_results (run_manifest inp) inp.cmd_files stages).map (fun r => r.2.2)

/-- The mandatory outcomes of the actual run (stages 1 through 7). -/
def mandatory_outcomes (inp : RunInput) : List Bool :=
  mandatory_outcomes_over the_stages inp

/-- The final value of the all_pass flag: initialised to True (line 18),
folded through every mandatory check with step, then carried unchanged through
the template loop (lines 45 to 51, which never writes the flag). -/
def all_pass_over (stages : List Nat) (inp : RunInput) : Bool :=
  List.foldl (fun acc _ => acc)
    (List.foldl step true (mandatory_outcomes_over stages inp))
    (template_results inp)

/-- all_pass at the end of the actual run. -/
def all_pass (inp : RunInput) : Bool := all_pass_over the_stages inp

/-- The final summary line of lines 54 to 57. -/
def summary_line (inp : RunInput) : String :=
  if all_pass inp then "ALL CROSS-REFERENCE CHECKS PASSED"
  else "SOME CROSS-REFERENCE CHECKS FAILED"

/-! Helper lemmas about the aggregate flag. -/

theorem step_eq_and (b x : Bool) : step b x = (b && x) := by
  cases x <;> cases b <;> rfl

theorem foldl_step_eq (l : List Bool) (b : Bool) :
    List.foldl step b l = (b && l.all id) := by
  induction l generalizing b with
  | nil => simp
  | cons x xs ih =>
    rw [List.foldl_cons, step_eq_and, ih, List.all_cons, id, Bool.and_assoc]

theorem foldl_const_eq (l : List (String × Nat)) (b : Bool) :
    List.foldl (fun acc _ => acc) b l = b := by
  induction l generalizing b with
  | nil => rfl
  | cons x xs ih => exact ih b

theorem all_pass_eq_all (stages : List Nat) (inp : RunInput) :
    all_pass_over stages inp = (mandatory_outcomes_over stages inp).all id := by
  rw [all_pass_over, foldl_const_eq, foldl_step_eq, Bool.true_and]

theorem all_id_false_iff (l : List Bool) : (l.all id = false) ↔ false ∈ l := by
  induction l with
  | nil => simp
  | cons x xs ih => cases x <;> simp [ih]

theorem summary_eq_failed_iff (inp : RunInput) :
    summary_line inp = "SOME CROSS-REFERENCE CHECKS FAILED" ↔ all_pass inp = false := by
  cases h : all_pass inp
  · simp [summary_line, h]
  · simp [summary_line, h]

theorem summary_ignores_templates (inp : RunInput) (ts : List (String × String)) :
    summary_line (with_templates inp ts) = summary_line inp := by
  have h : all_pass (with_templates inp ts) = all_pass inp := by
    rw [all_pass, all_pass, all_pass_eq_all, all_pass_eq_all]
    rfl
  rw [summary_line, summary_line, h]

/-- C1: the final summary line reads SOME CROSS-REFERENCE CHECKS FAILED if and
only if at least one mandatory-domain check outcome (root document or any
stage-command file) is false, and replacing the template files never changes
the summary line. -/
theorem verdict_false_iff_mandatory_failure (inp : RunInput) :
    (summary_line inp = "SOME CROSS-REFERENCE CHECKS FAILED" ↔
      false ∈ mandatory_outcomes inp) ∧
    (∀ ts, summary_line (with_templates inp ts) = summary_line inp) := by
  constructor
  · rw [summary_eq_failed_iff, all_pass, all_pass_eq_all]
    exact all_id_false_iff _
  · intro ts
    exact summary_ignores_templates inp ts

/-- C10: the aggregate flag update step never turns the flag back to true
(step acc b = true forces acc = true), the flag starts at true, and once the
fold over any prefix of the mandatory outcomes has reached false the final
summary line is the failure line regardless of all later outcomes. -/
theorem all_pass_flag_monotone :
    (∀ acc b, step acc b = true → acc = true) ∧
    (List.foldl step true ([] : List Bool) = true) ∧
    (∀ inp pre post, mandatory_outcomes inp = pre ++ post →
      List.foldl step true pre = false →
      summary_line inp = "SOME CROSS-REFERENCE CHECKS FAILED") := by
  refine ⟨?_, rfl, ?_⟩
  · intro acc b h
    cases b
    · exact absurd h (by simp [step])
    · simp [step] at h
      exact h
  · intro inp pre post hsplit hpre
    rw [summary_eq_failed_iff, all_pass, all_pass_eq_all]
    have hs : mandatory_outcomes_over the_stages inp = pre ++ post := hsplit
    rw [hs, List.all_append]
    rw [foldl_step_eq, Bool.true_and] at hpre
    simp [hpre]

/-- Witness for C10 at a run whose root document references an agent missing
from an empty manifest. -/
theorem all_pass_flag_monotone_witness :
    mandatory_outcomes (RunInput.mk ("ghost-agent") [] [] []) = [false] ++ [] ∧
    List.foldl step true [false] = false ∧
    summary_line (RunInput.mk ("ghost-agent") [] [] []) =
      "SOME CROSS-REFERENCE CHECKS FAILED" :=
  ⟨by decide, by decide,
    all_pass_flag_monotone.2.2 (RunInput.mk ("ghost-agent") [] [] [])
      [false] [] (by decide) (by decide)⟩

/-- C4: the Resolution Checker returns true exactly on the strings that are
elements of the manifest and false exactly on those that are not; it is a
total function on strings. -/
theorem resolves_iff_mem (ref : String) (manifest : List String) :
    (resolves ref manifest = true ↔ ref ∈ manifest) ∧
    (resolves ref manifest = false ↔ ref ∉ manifest) := by
  constructor
  · simp [resolves]
  · simp [resolves]

/-- C5: on the manifest of writer-agent and reviewer-agent and the given root
text, the scanner reports ghost-agent FAIL and the other two PASS, in sorted
order, and the conjunction over that domain is false. -/
theorem scan_refs_example :
    scan_refs [("writer-agent"), ("reviewer-agent")]
        ("Use writer-agent then reviewer-agent, never ghost-agent.") =
      [(("ghost-agent"), false), (("reviewer-agent"), true), (("writer-agent"), true)] ∧
    List.foldl step true
        ((scan_refs [("writer-agent"), ("reviewer-agent")]
          ("Use writer-agent then reviewer-agent, never ghost-agent.")).map Prod.snd) =
      false := by
  constructor
  · decide
  · decide

/-- C7: a template file containing one placeholder counts 1 and is labelled
PASS, one containing none counts 0 and is labelled WARN, and the template
files never influence the summary line. -/
theorem template_check_example :
    vars_found_count ("name = \x7b\x7bPROJECT_NAME\x7d\x7d") = 1 ∧
    template_label ("name = \x7b\x7bPROJECT_NAME\x7d\x7d") = "PASS" ∧
    vars_found_count ("name = PROJECT_NAME") = 0 ∧
    template_label ("name = PROJECT_NAME") = "WARN" ∧
    (∀ inp ts, summary_line (with_templates inp ts) = summary_line inp) := by
  refine ⟨by decide, by decide, by decide, by decide, ?_⟩
  intro inp ts
  exact summary_ignores_templates inp ts

theorem stage_results_for_empty (manifest : List String)
    (cmd_files : List (String × String)) (i : Nat)
    (h : cmd_files.filter (fun fc => starts_with_tag (stage_tag i) fc.1) = []) :
    stage_results_for manifest cmd_files i = [] := by
  rw [stage_results_for, h]
  rfl

/-- C9: a stage index with zero matching command files contributes zero
check results, and the overall verdict equals the verdict of the run with
that stage index removed from the stage sequence. -/
theorem stage_vacuous (inp : RunInput) (i : Nat) (l1 l2 : List Nat)
    (hdec : the_stages = l1 ++ i :: l2)
    (hempty : inp.cmd_files.filter (fun fc => starts_with_tag (stage_tag i) fc.1) = []) :
    stage_results_for (run_manifest inp) inp.cmd_files i = [] ∧
    all_pass inp = all_pass_over (l1 ++ l2) inp := by
  have hcontrib : stage_results_for (run_manifest inp) inp.cmd_files i = [] :=
    stage_results_for_empty _ _ _ hempty
  refine ⟨hcontrib, ?_⟩
  rw [all_pass, all_pass_eq_all, all_pass_eq_all]
  have hsr : stage_results (run_manifest inp) inp.cmd_files the_stages =
      stage_results (run_manifest inp) inp.cmd_files (l1 ++ l2) := by
    rw [hdec, stage_results, stage_results, List.map_append, List.map_cons,
      List.flatten_append, List.flatten_cons, hcontrib, List.map_append,
      List.flatten_append]
    simp
  rw [mandatory_outcomes_over, mandatory_outcomes_over, hsr]

/-- Witness for C9: a run with one stage-01 command file and no stage-03
command file. -/
theorem stage_vacuous_witness :
    the_stages = [1, 2] ++ 3 :: [4, 5, 6, 7] ∧
    (RunInput.mk ("") [] [(("stage-01-run.md"), ("writer-agent"))] []).cmd_files.filter
        (fun fc => starts_with_tag (stage_tag 3) fc.1) = [] ∧
    (stage_results_for
        (run_manifest (RunInput.mk ("") [] [(("stage-01-run.md"), ("writer-agent"))] []))
        (RunInput.mk ("") [] [(("stage-01-run.md"), ("writer-agent"))] []).cmd_files 3 = [] ∧
      all_pass (RunInput.mk ("") [] [(("stage-01-run.md"), ("writer-agent"))] []) =
        all_pass_over ([1, 2] ++ [4, 5, 6, 7])
          (RunInput.mk ("") [] [(("stage-01-run.md"), ("writer-agent"))] [])) :=
  ⟨by decide, by decide,
    stage_vacuous (RunInput.mk ("") [] [(("stage-01-run.md"), ("writer-agent"))] [])
      3 [1, 2] [4, 5, 6, 7] (by decide) (by decide)⟩

/-! Helper lemmas about the string order and the sorting model. -/

theorem listLe_total : ∀ a b : List Char, listLe a b = true ∨ listLe b a = true := by
  intro a
  induction a with
  | nil => intro b; left; rfl
  | cons x xs ih =>
    intro b
    cases b with
    | nil => right; rfl
    | cons y ys =>
      rcases Nat.lt_trichotomy x.toNat y.toNat with h | h | h
      · left
        simp [listLe, h]
      · rcases ih ys with h2 | h2
        · left
          simp [listLe, h, h2]
        · right
          simp [listLe, h.symm, h2]
      · right
        simp [listLe, h]

theorem listLe_trans : ∀ a b c : List Char,
    listLe a b = true → listLe b c = true → listLe a c = true := by
  intro a
  induction a with
  | nil => intro b c _ _; rfl
  | cons x xs ih =>
    intro b c hab hbc
    cases b with
    | nil => simp [listLe] at hab
    | cons y ys =>
      cases c with
      | nil => simp [listLe] at hbc
      | cons z zs =>
        simp only [listLe] at hab hbc ⊢
        by_cases h1 : x.toNat < y.toNat
        · by_cases h2 : y.toNat < z.toNat
          · have h3 : x.toNat < z.toNat := by omega
            simp [h3]
          · by_cases h4 : y.toNat = z.toNat
            · have h3 : x.toNat < z.toNat := by omega
              simp [h3]
            · simp [h2, h4] at hbc
        · by_cases h5 : x.toNat = y.toNat
          · simp [h1, h5] at hab
            by_cases h2 : y.toNat < z.toNat
            · have h3 : x.toNat < z.toNat := by omega
              simp [h3]
            · by_cases h4 : y.toNat = z.toNat
              · simp [h2, h4] at hbc
                have h6 : ¬ x.toNat < z.toNat := by omega
                have h7 : x.toNat = z.toNat := by omega
                simp [h6, h7]
                exact ih ys zs hab hbc
              · simp [h2, h4] at hbc
          · simp [h1, h5] at hab

theorem strLe_total (a b : String) : strLe a b = true ∨ strLe b a = true :=
  listLe_total a.data b.data

theorem strLe_trans (a b c : String) (h1 : strLe a b = true) (h2 : strLe b c = true) :
    strLe a c = true :=
  listLe_trans a.data b.data c.data h1 h2

theorem perm_insertSorted (a : String) :
    ∀ l : List String, List.Perm (insertSorted a l) (a :: l) := by
  intro l
  induction l with
  | nil => exact List.Perm.refl _
  | cons b bs ih =>
    simp only [insertSorted]
    by_cases h : strLe a b = true
    · rw [if_pos h]
    · rw [if_neg h]
      exact (List.Perm.cons b ih).trans (List.Perm.swap a b bs)

theorem perm_sortStr : ∀ l : List String, List.Perm (sortStr l) l := by
  intro l
  induction l with
  | nil => exact List.Perm.refl _
  | cons a as ih =>
    exact (perm_insertSorted a (sortStr as)).trans (List.Perm.cons a ih)

theorem pairwise_insertSorted (a : String) :
    ∀ l : List String, List.Pairwise (fun u v => strLe u v = true) l →
      List.Pairwise (fun u v => strLe u v = true) (insertSorted a l) := by
  intro l
  induction l with
  | nil =>
    intro _
    simp [insertSorted]
  | cons b bs ih =>
    intro hp
    rw [List.pairwise_cons] at hp
    simp only [insertSorted]
    by_cases h : strLe a b = true
    · rw [if_pos h, List.pairwise_cons]
      constructor
      · intro x hx
        rcases List.mem_cons.mp hx with rfl | hx2
        · exact h
        · exact strLe_trans a b x h (hp.1 x hx2)
      · exact List.pairwise_cons.mpr hp
    · have hba : strLe b a = true := by
        rcases strLe_total a b with h2 | h2
        · exact absurd h2 h
        · exact h2
      rw [if_neg h, List.pairwise_cons]
      constructor
      · intro x hx
        have hx2 : x ∈ a :: bs := (perm_insertSorted a bs).mem_iff.mp hx
        rcases List.mem_cons.mp hx2 with rfl | hx3
        · exact hba
        · exact hp.1 x hx3
      · exact ih hp.2

theorem pairwise_sortStr : ∀ l : List String,
    List.Pairwise (fun u v => strLe u v = true) (sortStr l) := by
  intro l
  induction l with
  | nil => simp [sortStr]
  | cons a as ih => exact pairwise_insertSorted a (sortStr as) ih

/-- C6: within one agent-reference domain the scanner emits one check result
per distinct extracted reference (its reference column is duplicate-free and
covers exactly the extracted references), and the results are ordered by the
code-point string order Python sorted uses. -/
theorem scan_refs_sorted_nodup (manifest : List String) (text : String) :
    List.Pairwise (fun u v => strLe u v = true) ((scan_refs manifest text).map Prod.fst) ∧
    ((scan_refs manifest text).map Prod.fst).Nodup ∧
    (∀ r, r ∈ (scan_refs manifest text).map Prod.fst ↔ r ∈ agent_pattern_findall text) := by
  have hmap : (scan_refs manifest text).map Prod.fst = sortStr (agent_refs text) := by
    simp [scan_refs, List.map_map, Function.comp_def]
  refine ⟨?_, ?_, ?_⟩
  · rw [hmap]
    exact pairwise_sortStr _
  · rw [hmap]
    exact ((perm_sortStr (agent_refs text)).nodup_iff).mpr (List.nodup_dedup _)
  · intro r
    rw [hmap, (perm_sortStr (agent_refs text)).mem_iff]
    exact List.mem_dedup

/-! Helper lemmas about the extractor. -/

theorem matchTail_sound : ∀ s m r : List Char, matchTail s = some (m, r) →
    s = m ++ r ∧ ∃ mid, m = mid ++ agentLit ∧ mid.all isTokChar = true := by
  intro s
  induction s with
  | nil =>
    intro m r h
    simp [matchTail] at h
  | cons c rest ih =>
    intro m r h
    simp only [matchTail] at h
    cases hmt : (if isTokChar c then matchTail rest else none) with
    | some pr =>
      obtain ⟨m1, r1⟩ := pr
      rw [hmt] at h
      simp only [Option.some.injEq, Prod.mk.injEq] at h
      obtain ⟨hm, hr⟩ := h
      have htok : isTokChar c = true := by
        by_cases hc : isTokChar c = true
        · exact hc
        · rw [if_neg hc] at hmt
          exact absurd hmt (by simp)
      rw [if_pos htok] at hmt
      obtain ⟨hsplit, mid, hmid, hall⟩ := ih m1 r1 hmt
      constructor
      · rw [← hm, ← hr, hsplit]
        rfl
      · refine ⟨c :: mid, ?_, ?_⟩
        · rw [← hm, hmid]
          rfl
        · rw [List.all_cons, htok, hall]
          rfl
    | none =>
      rw [hmt] at h
      simp only [] at h
      by_cases hlit : (c :: rest).take 6 = agentLit
      · rw [if_pos hlit] at h
        simp only [Option.some.injEq, Prod.mk.injEq] at h
        obtain ⟨hm, hr⟩ := h
        constructor
        · rw [← hm, ← hr, ← hlit]
          exact (List.take_append_drop 6 (c :: rest)).symm
        · exact ⟨[], by rw [← hm]; rfl, rfl⟩
      · rw [if_neg hlit] at h
        exact absurd h (by simp)

theorem findAllAux_sound : ∀ fuel s m, m ∈ findAllAux fuel s →
    (∃ p q, s = p ++ m ++ q) ∧
    ∃ c mid, m = c :: (mid ++ agentLit) ∧ isWordChar c = true ∧
      mid.all isTokChar = true := by
  intro fuel
  induction fuel with
  | zero =>
    intro s m h
    simp [findAllAux] at h
  | succ n ih =>
    intro s m h
    cases s with
    | nil => simp [findAllAux] at h
    | cons c rest =>
      simp only [findAllAux] at h
      by_cases hw : isWordChar c = true
      · rw [if_pos hw] at h
        cases hmt : matchTail rest with
        | some pr =>
          obtain ⟨m0, r0⟩ := pr
          rw [hmt] at h
          rcases List.mem_cons.mp h with rfl | h2
          · obtain ⟨hsplit, mid, hmid, hall⟩ := matchTail_sound rest m0 r0 hmt
            refine ⟨⟨[], r0, ?_⟩, ⟨c, mid, ?_, hw, hall⟩⟩
            · rw [List.nil_append, hsplit]
              rfl
            · rw [hmid]
          · obtain ⟨hsplit, _⟩ := matchTail_sound rest m0 r0 hmt
            obtain ⟨⟨p, q, hpq⟩, htok⟩ := ih r0 m h2
            refine ⟨⟨c :: (m0 ++ p), q, ?_⟩, htok⟩
            rw [hsplit, hpq]
            simp [List.append_assoc]
        | none =>
          rw [hmt] at h
          obtain ⟨⟨p, q, hpq⟩, htok⟩ := ih rest m h
          refine ⟨⟨c :: p, q, ?_⟩, htok⟩
          rw [hpq]
          rfl
      · rw [if_neg hw] at h
        obtain ⟨⟨p, q, hpq⟩, htok⟩ := ih rest m h
        refine ⟨⟨c :: p, q, ?_⟩, htok⟩
        rw [hpq]
        rfl

theorem containsLit_append : ∀ x y : List Char,
    containsLit (x ++ (agentLit ++ y)) = true := by
  intro x
  induction x with
  | nil =>
    intro y
    rw [List.nil_append]
    have ht : (('-' : Char) :: 'a' :: 'g' :: 'e' :: 'n' :: 't' :: y).take 6 = agentLit := rfl
    rw [show agentLit ++ y = ('-' : Char) :: 'a' :: 'g' :: 'e' :: 'n' :: 't' :: y from rfl]
    simp [containsLit, ht]
  | cons x0 xs ih =>
    intro y
    rw [List.cons_append]
    simp [containsLit, ih y]

/-- C2 counterexample: in the text writer-agents the -agent occurrence is
immediately followed by a word character, yet the extractor does extract
writer-agent, contradicting the claimed trailing word boundary. -/
theorem agent_refs_no_right_boundary :
    agent_refs ("writer-agents") = [("writer-agent")] := by
  decide

/-- C2 amended: every extracted reference is a substring of the input that
matches the agent-naming convention with a word boundary only on the left of
the token (a word character, then word characters or hyphens, ending in the
literal -agent); there is no trailing word-boundary requirement, so the text
writer-agents yields writer-agent. -/
theorem agent_findall_sound (t : String) (m : List Char)
    (h : m ∈ agent_findall_chars t) :
    (∃ p q, t.data = p ++ m ++ q) ∧
    (∃ c mid, m = c :: (mid ++ agentLit) ∧ isWordChar c = true ∧
      mid.all isTokChar = true) ∧
    agent_refs ("writer-agents") = [("writer-agent")] := by
  obtain ⟨h1, h2⟩ := findAllAux_sound t.data.length t.data m h
  exact ⟨h1, h2, by decide⟩

/-- Witness for the amended C2 at the text writer-agents. -/
theorem agent_findall_sound_witness :
    (String.data ("writer-agent") ∈ agent_findall_chars ("writer-agents")) ∧
    ((∃ p q, String.data ("writer-agents") = p ++ String.data ("writer-agent") ++ q) ∧
      (∃ c mid, String.data ("writer-agent") = c :: (mid ++ agentLit) ∧
        isWordChar c = true ∧ mid.all isTokChar = true) ∧
      agent_refs ("writer-agents") = [("writer-agent")]) :=
  ⟨by decide,
    agent_findall_sound ("writer-agents") (String.data ("writer-agent")) (by decide)⟩

/-- C8: the Reference Extractor is a pure function, its value on a text is the
same however often it is applied, and a text that does not even contain the
literal -agent yields the empty result rather than an error. -/
theorem extractor_pure (t : String) :
    agent_refs t = agent_refs t ∧
    (containsLit t.data = false → agent_refs t = []) := by
  refine ⟨rfl, ?_⟩
  intro hnc
  have hfind : agent_findall_chars t = [] := by
    cases hfa : agent_findall_chars t with
    | nil => rfl
    | cons m ms =>
      exfalso
      have hm : m ∈ agent_findall_chars t := by
        rw [hfa]
        exact List.mem_cons_self m ms
      obtain ⟨⟨p, q, hpq⟩, c, mid, hm2, _, _⟩ := findAllAux_sound t.data.length t.data m hm
      rw [hm2] at hpq
      have hsplit : p ++ (c :: (mid ++ agentLit)) ++ q = (p ++ c :: mid) ++ (agentLit ++ q) := by
        simp [List.append_assoc]
      have hc : containsLit t.data = true := by
        rw [hpq, hsplit]
        exact containsLit_append _ _
      rw [hc] at hnc
      exact absurd hnc (by simp)
  rw [agent_refs, agent_pattern_findall, hfind]
  rfl

/-- Witness for C8 at a text with no -agent occurrence. -/
theorem extractor_pure_witness :
    containsLit (String.data ("hello world")) = false ∧
    agent_refs ("hello world") = [] :=
  ⟨by decide, (extractor_pure ("hello world")).2 (by decide)⟩

/-! Helper lemmas about the manifest builder. -/

theorem removeMd_cons_ne (c : Char) (l : List Char) (h : ¬ c = '.') :
    removeMd (c :: l) = c :: removeMd l := by
  cases l with
  | nil => rfl
  | cons d l2 =>
    cases l2 with
    | nil => rfl
    | cons e l3 =>
      simp only [removeMd]
      rw [if_neg]
      intro hcon
      exact h hcon.1

theorem removeMd_strip (stem : List Char) (h : ('.' : Char) ∉ stem) :
    removeMd (stem ++ ['.', 'm', 'd']) = stem := by
  induction stem with
  | nil => rfl
  | cons c cs ih =>
    have hc : ¬ c = '.' := by
      intro hcon
      apply h
      rw [← hcon]
      exact List.mem_cons_self c cs
    have hcs : ('.' : Char) ∉ cs := fun hx => h (List.mem_cons_of_mem c hx)
    rw [List.cons_append, removeMd_cons_ne c _ hc, ih hcs]

/-- C3 counterexample: the file name a.mdb.md ends in .md, yet the manifest
entry the code builds for it is ab, not the suffix-stripped a.mdb, because
str.replace removes every occurrence of .md. -/
theorem existing_agents_counterexample :
    existing_agents [("a.mdb.md")] = [("ab")] ∧
    ("a.mdb") ∉ existing_agents [("a.mdb.md")] := by
  constructor
  · decide
  · decide

/-- C3 amended: the Manifest Builder keeps exactly the file names ending in
.md and maps each to the name with every non-overlapping occurrence of .md
removed (not only the trailing suffix); zero files yield an empty manifest,
duplicates collapse, and on conventional names, a dot-free stem followed by
the .md suffix, the removal strips exactly that suffix. -/
theorem existing_agents_spec :
    existing_agents [] = [] ∧
    (∀ files, (existing_agents files).Nodup) ∧
    (∀ files s, s ∈ existing_agents files ↔
      ∃ f, f ∈ files ∧ ends_with_md f = true ∧ replace_md f = s) ∧
    (∀ stem : List Char, ('.' : Char) ∉ stem →
      removeMd (stem ++ ['.', 'm', 'd']) = stem) := by
  refine ⟨rfl, ?_, ?_, removeMd_strip⟩
  · intro files
    exact List.nodup_dedup _
  · intro files s
    simp only [existing_agents, List.mem_dedup, List.mem_map, List.mem_filter]
    constructor
    · rintro ⟨f, ⟨hf, he⟩, hr⟩
      exact ⟨f, hf, he, hr⟩
    · rintro ⟨f, hf, he, hr⟩
      exact ⟨f, ⟨hf, he⟩, hr⟩

/-- Witness for the amended C3 at the conventional file name writer-agent.md. -/
theorem existing_agents_spec_witness :
    (('.' : Char) ∉ String.data ("writer-agent")) ∧
    removeMd (String.data ("writer-agent") ++ ['.', 'm', 'd']) =
      String.data ("writer-agent") :=
  ⟨by decide, existing_agents_spec.2.2.2 (String.data ("writer-agent")) (by decide)⟩

end Xref
